import Mathlib

/-!
Verification of the 3dSignature stroke-to-geometry pipeline.

The embedding models the three renderer components of the repository:
the 2D canvas re-renderer (`SignatureRecreate`, `drawSignature`), the
frame-driven index reveal (`animate` in `SignatureRecreate`), the
arc-length dash reveal and Catmull-Rom resampling of the 3D model
(`SignatureModel`), and the capture flattening (`handleComplete` in
`SignatureCapture`).

JavaScript numeric special values (NaN, Infinity) and dynamically
non-numeric fields matter for the validity-guard claims, so coordinates
are modelled by `JNum`: exact rationals for finite values plus the
special values, with the IEEE-style propagation rules JavaScript uses.
Finite arithmetic is exact (rational); no claim below depends on
rounding, only on the special-value algebra and on exact small inputs.
-/

/-- A JavaScript numeric (or non-numeric) field value: a finite number,
NaN, +Infinity, -Infinity, or a value that is not a number at all
(undefined / null / string), as distinguished by `typeof x === 'number'`. -/
inductive JNum where
  | fin (q : ℚ)
  | nan
  | inf
  | ninf
  | undef
deriving DecidableEq, Repr

/-- `typeof v === 'number'` — true for finite numbers, NaN and the
infinities, false only for non-number values. -/
def JNum.isNumber : JNum → Bool
  | .undef => false
  | _ => true

/-- The value is an actual finite number. -/
def JNum.finite : JNum → Bool
  | .fin _ => true
  | _ => false

/-- JavaScript division on field values: finite/finite is exact rational
division; x/0 gives ±Infinity (NaN for 0/0); any NaN or non-number
operand gives NaN; finite/±Infinity gives 0. -/
def jdiv : JNum → JNum → JNum
  | .fin a, .fin b =>
      if b = 0 then (if a = 0 then .nan else if 0 < a then .inf else .ninf)
      else .fin (a / b)
  | .fin _, .inf => .fin 0
  | .fin _, .ninf => .fin 0
  | .inf, .fin b => if 0 ≤ b then .inf else .ninf
  | .ninf, .fin b => if 0 ≤ b then .ninf else .inf
  | .inf, .inf => .nan
  | .inf, .ninf => .nan
  | .ninf, .inf => .nan
  | .ninf, .ninf => .nan
  | _, _ => .nan

/-- JavaScript multiplication on field values. -/
def jmul : JNum → JNum → JNum
  | .fin a, .fin b => .fin (a * b)
  | .fin a, .inf => if a = 0 then .nan else if 0 < a then .inf else .ninf
  | .inf, .fin b => if b = 0 then .nan else if 0 < b then .inf else .ninf
  | .fin a, .ninf => if a = 0 then .nan else if 0 < a then .ninf else .inf
  | .ninf, .fin b => if b = 0 then .nan else if 0 < b then .ninf else .inf
  | .inf, .inf => .inf
  | .ninf, .ninf => .inf
  | .inf, .ninf => .ninf
  | .ninf, .inf => .ninf
  | _, _ => .nan

/-- JavaScript addition on field values. -/
def jadd : JNum → JNum → JNum
  | .fin a, .fin b => .fin (a + b)
  | .fin _, .inf => .inf
  | .inf, .fin _ => .inf
  | .fin _, .ninf => .ninf
  | .ninf, .fin _ => .ninf
  | .inf, .inf => .inf
  | .ninf, .ninf => .ninf
  | .inf, .ninf => .nan
  | .ninf, .inf => .nan
  | _, _ => .nan

/-- JavaScript `p || d` restricted to numeric `p`: `0` (and only `0`,
among rationals) is falsy and is replaced by the default `d`.
This is the `(current.pressure || 0.5)` idiom of the source. -/
def jsOr (p d : ℚ) : ℚ := if p = 0 then d else p

/-- The 2D renderer's coordinate scaling, from `drawSignature` in
`SignatureRecreate`: `(v / originalDim) * canvasDim`, with JavaScript
division semantics (the source performs no dimension validation). -/
def scaleCoordJ (v : JNum) (orig target : ℚ) : JNum :=
  jmul (jdiv v (.fin orig)) (.fin target)

/-- The spec's `toNormalized` on one coordinate: divide by the capture
dimension. -/
def toNormalizedCoord (v dim : ℚ) : ℚ := v / dim

/-- The spec's `toTarget` on one coordinate: multiply by the target
dimension. -/
def toTargetCoord (n target : ℚ) : ℚ := n * target

/-- A point as the renderers receive it: dynamically typed `x`/`y`
(the source guards them with `typeof ... !== 'number'`), plus timestamp
and pressure. -/
structure JPoint where
  x : JNum
  y : JNum
  timestamp : ℚ
  pressure : ℚ
deriving DecidableEq, Repr

/-- Both coordinates of the point are genuine finite numbers. -/
def ptOk (p : JPoint) : Bool := p.x.finite && p.y.finite

/-- The per-segment line width of `drawSignature`:
`baseLineWidth * (canvasWidth / originalWidth) * (1 + (pressure || 0.5))`. -/
def segWidthJ (base ow cw : ℚ) (p : ℚ) : JNum :=
  jmul (jmul (.fin base) (jdiv (.fin cw) (.fin ow))) (.fin (1 + jsOr p (1/2)))

/-- One emitted path segment of `drawSignature`: the loop index, the
scaled current and next points, and the line width set for it. -/
structure Seg where
  idx : ℕ
  cx : JNum
  cy : JNum
  nx : JNum
  ny : JNum
  w : JNum
deriving DecidableEq, Repr

/-- One iteration of the segment loop of `drawSignature` at index `i`:
if both endpoints pass the `typeof` guard, scale them by
`(v / originalDim) * canvasDim` and record the segment with its line
width; otherwise `continue` (no segment). -/
def segAt (ow oh cw ch base : ℚ) (pts : List JPoint) (i : ℕ) : Option Seg :=
  match pts.get? i, pts.get? (i+1) with
  | some cur, some nxt =>
    if cur.x.isNumber && cur.y.isNumber && nxt.x.isNumber && nxt.y.isNumber then
      some { idx := i,
             cx := scaleCoordJ cur.x ow cw, cy := scaleCoordJ cur.y oh ch,
             nx := scaleCoordJ nxt.x ow cw, ny := scaleCoordJ nxt.y oh ch,
             w := segWidthJ base ow cw cur.pressure }
    else none
  | _, _ => none

/-- The segment loop of `drawSignature`: `segAt` for every `i` below
`points.length - 1`. -/
def drawSegments (ow oh cw ch base : ℚ) (pts : List JPoint) : List Seg :=
  (List.range (pts.length - 1)).filterMap (segAt ow oh cw ch base pts)

/-- Midpoint x of a segment, as computed in the source:
`(currentX + nextX) / 2`. -/
def segMidX (s : Seg) : JNum := jdiv (jadd s.cx s.nx) (.fin 2)

/-- Midpoint y of a segment: `(currentY + nextY) / 2`. -/
def segMidY (s : Seg) : JNum := jdiv (jadd s.cy s.ny) (.fin 2)

/-- The canvas actually paints the quadratic curve of a segment only
when every coordinate argument is finite: per the HTML canvas
specification, a path method whose argument is infinite or NaN returns
without effect. -/
def segDrawn (s : Seg) : Bool :=
  s.cx.finite && s.cy.finite && (segMidX s).finite && (segMidY s).finite

/-- A 2D surface command issued by `drawSignature`. -/
inductive DrawCmd where
  | fillWhite
  | clearRect
  | moveTo (x y : JNum)
  | quadTo (idx : ℕ) (cx cy ex ey : JNum) (w : JNum)
  | strokePath
deriving DecidableEq, Repr

/-- Background mode of `drawSignature`: `'white'` for the live preview,
`'transparent'` for the PNG export. -/
inductive Background where
  | white
  | transparent
deriving DecidableEq, Repr

/-- The clear/fill command for a background mode: `fillRect` with white
for the preview, `clearRect` for the export. -/
def bgCmd : Background → DrawCmd
  | .white => .fillWhite
  | .transparent => .clearRect

/-- Path commands of one segment: `moveTo` the first scaled point when
`i === 0`, then `quadraticCurveTo` with the scaled current point as
control and the midpoint as endpoint. -/
def segCmds (s : Seg) : List DrawCmd :=
  (if s.idx = 0 then [DrawCmd.moveTo s.cx s.cy] else []) ++
  [DrawCmd.quadTo s.idx s.cx s.cy (segMidX s) (segMidY s) s.w]

/-- `drawSignature` of `SignatureRecreate`: an empty point list returns
immediately (before any clear); otherwise the background is
filled/cleared first, the segment loop runs, and the path is stroked. -/
def drawSignature (ow oh cw ch base : ℚ) (bg : Background) (pts : List JPoint) :
    List DrawCmd :=
  if pts.isEmpty then []
  else bgCmd bg ::
    ((drawSegments ow oh cw ch base pts).flatMap segCmds ++ [DrawCmd.strokePath])

/-- A raw sample as delivered by the capture pad: dynamically typed
`x`/`y`/`time` plus a pressure number. -/
structure RawSample where
  x : JNum
  y : JNum
  time : JNum
  pressure : ℚ
deriving DecidableEq, Repr

/-- `handleComplete` of `SignatureCapture`: flatten all strokes into one
ordered sequence, dropping samples whose `x`, `y` or `time` is not a
number, and substituting pressure `0.5` for falsy pressure via
`point.pressure || 0.5`. -/
def flattenRecording (strokes : List (List RawSample)) : List RawSample :=
  strokes.flatMap (fun stroke =>
    stroke.filterMap (fun pt =>
      if pt.x.isNumber && pt.y.isNumber && pt.time.isNumber then
        some { pt with pressure := jsOr pt.pressure (1/2) }
      else none))

/-- State of the index-policy reveal in `SignatureRecreate`'s animation
effect: the closure counter `currentIndex`, the length of the
`currentPoints` state (the revealed count), the `isAnimating` flag and
whether a frame callback is scheduled. -/
structure AnimState where
  currentIndex : ℕ
  revealedCount : ℕ
  isAnimating : Bool
  scheduled : Bool
deriving DecidableEq, Repr

/-- Starting a new recording: the effect cancels any scheduled frame of
the superseded animation (its state is discarded wholesale), resets
`currentPoints` to `[]` and `currentIndex` to `0`, and schedules the
first tick. -/
def animStart (_ : AnimState) : AnimState :=
  { currentIndex := 0, revealedCount := 0, isAnimating := true, scheduled := true }

/-- One `animate` frame for a recording of `total` points: when
`currentIndex >= total` the animation stops (nothing revealed, no frame
rescheduled); otherwise one more point is appended and the next frame is
scheduled. -/
def animTick (total : ℕ) (s : AnimState) : AnimState :=
  if total ≤ s.currentIndex then
    { s with isAnimating := false, scheduled := false }
  else
    { currentIndex := s.currentIndex + 1, revealedCount := s.revealedCount + 1,
      isAnimating := s.isAnimating, scheduled := true }

/-- One `animate` frame of the 3D dash reveal in `SignatureModel`:
`if (currentOffset > 0) dashOffset = Math.max(0, currentOffset - 0.003)`. -/
def dashTick (o : ℚ) : ℚ := if 0 < o then max 0 (o - 3/1000) else o

/-- A 3D position, exact-rational model of `THREE.Vector3`. -/
abbrev V3 := ℚ × ℚ × ℚ

/-- Componentwise vector addition. -/
def vadd (a b : V3) : V3 := (a.1 + b.1, a.2.1 + b.2.1, a.2.2 + b.2.2)

/-- Componentwise vector subtraction. -/
def vsub (a b : V3) : V3 := (a.1 - b.1, a.2.1 - b.2.1, a.2.2 - b.2.2)

/-- One component of the cubic Catmull-Rom evaluation used by the
external curve library (`CubicPoly` with tension `0.5`, the uniform
variant; the properties proved below do not depend on the interpolation
weights): value `c0 + c1 w + c2 w² + c3 w³` through `p1`, `p2` with
tangents `0.5 (p2 - p0)` and `0.5 (p3 - p1)`. -/
def catmullEval (p0 p1 p2 p3 w : ℚ) : ℚ :=
  let t0 := (1/2) * (p2 - p0)
  let t1 := (1/2) * (p3 - p1)
  let c2 := -3*p1 + 3*p2 - 2*t0 - t1
  let c3 := 2*p1 - 2*p2 + t0 + t1
  p1 + t0*w + c2*w^2 + c3*w^3

/-- Componentwise Catmull-Rom evaluation on 3D control points. -/
def catmullEvalV (p0 p1 p2 p3 : V3) (w : ℚ) : V3 :=
  (catmullEval p0.1 p1.1 p2.1 p3.1 w,
   catmullEval p0.2.1 p1.2.1 p2.2.1 p3.2.1 w,
   catmullEval p0.2.2 p1.2.2 p2.2.2 p3.2.2 w)

/-- Mirror extrapolation of the library: `a - b + a`, the virtual control
point `2a - b` used before the first and past the last point. -/
def extrapolateCtl (a b : V3) : V3 := vadd (vsub a b) a

/-- The `p0` control point of `CatmullRomCurve3.getPoint`: the previous
point when one exists, otherwise the mirror of `points[1]` through
`points[0]` — which accesses `points[1]`, missing on a single-point
curve (`none` models the thrown `TypeError`). -/
def catmullP0 (pts : List V3) (ip : ℤ) : Option V3 :=
  if 0 < ip then pts.get? ((ip - 1) % (pts.length : ℤ)).toNat
  else match pts.get? 0, pts.get? 1 with
    | some a, some b => some (extrapolateCtl a b)
    | _, _ => none

/-- The `p3` control point of `CatmullRomCurve3.getPoint`: the
second-next point when one exists, otherwise the mirror of the
second-to-last point through the last. -/
def catmullP3 (pts : List V3) (ip : ℤ) : Option V3 :=
  if ip + 2 < (pts.length : ℤ) then pts.get? ((ip + 2) % (pts.length : ℤ)).toNat
  else match pts.get? (pts.length - 1), pts.get? (pts.length - 2) with
    | some a, some b => some (extrapolateCtl a b)
    | _, _ => none

/-- Evaluate the spline on control segment `ip` with local weight `w`:
gather `p0, p1, p2, p3` and evaluate the cubic; a missing point fails. -/
def catmullSample (pts : List V3) (ip : ℤ) (w : ℚ) : Option V3 :=
  (catmullP0 pts ip).bind fun a =>
  (pts.get? ((ip % (pts.length : ℤ)).toNat)).bind fun b =>
  (pts.get? (((ip + 1) % (pts.length : ℤ)).toNat)).bind fun c =>
  (catmullP3 pts ip).map fun d => catmullEvalV a b c d w

/-- `CatmullRomCurve3.getPoint(t)` of the external library (open curve):
pick the control segment by `intPoint = floor((l - 1) t)`, shifting the
end point (`weight = 0` at `intPoint = l - 1`) into the last segment
with weight 1, then evaluate that segment. -/
def catmullPoint (pts : List V3) (t : ℚ) : Option V3 :=
  if ((pts.length : ℚ) - 1) * t - ⌊((pts.length : ℚ) - 1) * t⌋ = 0 ∧
      ⌊((pts.length : ℚ) - 1) * t⌋ = (pts.length : ℤ) - 1 then
    catmullSample pts ((pts.length : ℤ) - 2) 1
  else
    catmullSample pts ⌊((pts.length : ℚ) - 1) * t⌋
      (((pts.length : ℚ) - 1) * t - ⌊((pts.length : ℚ) - 1) * t⌋)

/-- Collect a list of optional values; any failure fails the whole
computation (the thrown `TypeError` aborts `getPoints`). -/
def allSome : List (Option V3) → Option (List V3)
  | [] => some []
  | none :: _ => none
  | some a :: rest =>
    match allSome rest with
    | some l => some (a :: l)
    | none => none

/-- `Curve.getPoints(divisions)`: samples `getPoint(d / divisions)` for
`d = 0 .. divisions`, producing `divisions + 1` samples. -/
def getPoints (pts : List V3) (divisions : ℕ) : Option (List V3) :=
  allSome ((List.range (divisions + 1)).map
    (fun i : ℕ => catmullPoint pts ((i : ℚ) / (divisions : ℚ))))

/-- A captured point with numeric fields, as consumed by the 3D model
(`SignatureModel` applies no `typeof` guards). -/
structure Point where
  x : ℚ
  y : ℚ
  timestamp : ℚ
  pressure : ℚ
deriving DecidableEq, Repr

/-- The raw 3D mapping of `SignatureModel`: scale into a width-150 box
preserving aspect, centered at the origin, at depth `z = 0`. -/
def mapRawPoint (w h : ℚ) (p : Point) : V3 :=
  let aspect := w / h
  let scale : ℚ := 150
  ((p.x / w) * scale * aspect - scale * aspect / 2,
   -((p.y / h) * scale) + scale / 2,
   0)

/-- The resampled centerline of the 3D geometry rebuild: map the
recording into 3D and sample the Catmull-Rom curve with
`rawPoints.length * 10` divisions, as in
`curve.getPoints(rawPoints.length * 10)`. -/
def resampledCenterline (w h : ℚ) (data : List Point) : Option (List V3) :=
  getPoints (data.map (mapRawPoint w h)) (data.length * 10)

/-- Euclidean distance of consecutive 3D samples (`distanceTo`). -/
noncomputable def dist3 (a b : V3) : ℝ :=
  Real.sqrt (((b.1 - a.1)^2 + (b.2.1 - a.2.1)^2 + (b.2.2 - a.2.2)^2 : ℚ) : ℝ)

/-- The consecutive-sample distances along a centerline, the summands of
the total-length loop of `SignatureModel`. -/
noncomputable def segLengths : List V3 → List ℝ
  | a :: b :: rest => dist3 a b :: segLengths (b :: rest)
  | _ => []

/-- The cumulative arc-length sequence along a centerline: the running
value of the `totalLength` accumulator, starting at `0`. -/
noncomputable def cumLengths (c : List V3) : List ℝ :=
  (segLengths c).scanl (· + ·) 0

/-- `totalLength`: the final value of the accumulator, the sum of all
consecutive distances. -/
noncomputable def totalLength3D (c : List V3) : ℝ := (segLengths c).sum

/-- Outcome of the geometry-rebuild effect of `SignatureModel`. -/
inductive BuildResult where
  | noGeometry
  | err
  | built (centerline : List V3)
deriving DecidableEq, Repr

/-- The geometry-rebuild effect: an empty recording returns before
building anything (`if (!signatureData.length) return`); otherwise the
centerline is resampled — a failing resample (single-point recording)
is the thrown `TypeError`, anything else becomes the new mesh. -/
def rebuild3D (w h : ℚ) (data : List Point) : BuildResult :=
  if data.length = 0 then .noGeometry
  else
    match resampledCenterline w h data with
    | some c => .built c
    | none => .err

/-! ### Helper lemmas -/

theorem jsOr_zero (d : ℚ) : jsOr 0 d = d := by simp [jsOr]

theorem scaleCoordJ_fin (x orig target : ℚ) (h : orig ≠ 0) :
    scaleCoordJ (.fin x) orig target = .fin (x / orig * target) := by
  simp [scaleCoordJ, jdiv, jmul, h]

theorem segWidthJ_fin (base ow cw p : ℚ) (h : ow ≠ 0) :
    segWidthJ base ow cw p = .fin (base * (cw / ow) * (1 + jsOr p (1/2))) := by
  simp [segWidthJ, jdiv, jmul, h]

/-! ### C1: normalize / map-to-target round trip -/

/-- C1: for finite coordinates and capture dimensions `W, H > 0`, the 2D
renderer's scaling `(v / originalDim) * canvasDim` is exactly the spec's
`toTarget ∘ toNormalized` for any target dimension, and with the target
equal to the capture size it is the identity on both coordinates. -/
theorem roundTrip_2d_scaling (x y W H Tw : ℚ) (hW : 0 < W) (hH : 0 < H) :
    scaleCoordJ (.fin x) W Tw = .fin (toTargetCoord (toNormalizedCoord x W) Tw) ∧
    scaleCoordJ (.fin x) W W = .fin x ∧
    scaleCoordJ (.fin y) H H = .fin y := by
  refine ⟨?_, ?_, ?_⟩
  · rw [scaleCoordJ_fin x W Tw hW.ne']
    rfl
  · rw [scaleCoordJ_fin x W W hW.ne', div_mul_cancel₀ x hW.ne']
  · rw [scaleCoordJ_fin y H H hH.ne', div_mul_cancel₀ y hH.ne']

/-- Witness for C1 at `p = (7, 3)`, capture `20 × 10`, target width 40. -/
theorem roundTrip_2d_scaling_witness :
    (0 : ℚ) < 20 ∧ (0 : ℚ) < 10 ∧
    (scaleCoordJ (.fin 7) 20 40 = .fin (toTargetCoord (toNormalizedCoord 7 20) 40) ∧
     scaleCoordJ (.fin 7) 20 20 = .fin 7 ∧
     scaleCoordJ (.fin 3) 10 10 = .fin 3) :=
  ⟨by norm_num, by norm_num,
   roundTrip_2d_scaling 7 3 20 10 40 (by norm_num) (by norm_num)⟩

/-! ### C5: no dimension validation in normalization -/

/-- C5 counterexample: normalization with capture width `0` (a width
`≤ 0`) does not fail with any error — it returns the value `Infinity`
(`NaN` for the coordinate `0`), and a negative capture width yields an
ordinary finite (sign-flipped) value. -/
theorem normalization_zero_dim_counterexample :
    scaleCoordJ (.fin 10) 0 40 = JNum.inf ∧
    scaleCoordJ (.fin 0) 0 40 = JNum.nan ∧
    scaleCoordJ (.fin 10) (-5) 40 = JNum.fin (-80) := by
  refine ⟨?_, ?_, ?_⟩
  · simp [scaleCoordJ, jdiv, jmul]
  · simp [scaleCoordJ, jdiv, jmul]
  · simp [scaleCoordJ, jdiv, jmul]
    norm_num

/-- C5 amended: the renderer performs no dimension validation and
normalization cannot fail: dividing by capture width `0` yields
`Infinity` for a positive coordinate and `NaN` for coordinate `0`,
and a negative capture width yields the finite value `(x / W) * cw`. -/
theorem normalization_no_validation (x cw W : ℚ) (hx : 0 < x) (hcw : 0 < cw)
    (hW : W < 0) :
    scaleCoordJ (.fin x) 0 cw = JNum.inf ∧
    scaleCoordJ (.fin 0) 0 cw = JNum.nan ∧
    scaleCoordJ (.fin x) W cw = JNum.fin (x / W * cw) := by
  refine ⟨?_, ?_, scaleCoordJ_fin x W cw hW.ne⟩
  · simp [scaleCoordJ, jdiv, jmul, hx, hx.ne', hcw, hcw.ne']
  · simp [scaleCoordJ, jdiv, jmul]

/-- Witness for C5 (amended) at `x = 10`, `cw = 40`, `W = -5`. -/
theorem normalization_no_validation_witness :
    (0 : ℚ) < 10 ∧ (0 : ℚ) < 40 ∧ (-5 : ℚ) < 0 ∧
    (scaleCoordJ (.fin 10) 0 40 = JNum.inf ∧
     scaleCoordJ (.fin 0) 0 40 = JNum.nan ∧
     scaleCoordJ (.fin 10) (-5) 40 = JNum.fin (10 / (-5) * 40)) :=
  ⟨by norm_num, by norm_num, by norm_num,
   normalization_no_validation 10 40 (-5) (by norm_num) (by norm_num) (by norm_num)⟩

/-! ### C7: arc-length dash reveal tick -/

/-- C7: for a non-negative dash offset, one reveal tick computes
`max 0 (previous - 0.003)`; the value never increases, never goes
negative (also along every iterated playback), decreases by exactly the
fixed step while at least a step remains, and stays at `0` forever once
it reaches `0`. -/
theorem dash_reveal_tick (o : ℚ) (h : 0 ≤ o) :
    dashTick o = max 0 (o - 3/1000) ∧
    dashTick o ≤ o ∧
    0 ≤ dashTick o ∧
    (3/1000 ≤ o → dashTick o = o - 3/1000) ∧
    dashTick 0 = 0 ∧
    (∀ n : ℕ, 0 ≤ dashTick^[n] o ∧ dashTick^[n+1] o ≤ dashTick^[n] o) := by
  have hstep : ∀ x : ℚ, 0 ≤ x → dashTick x = max 0 (x - 3/1000) := by
    intro x hx
    rcases lt_or_eq_of_le hx with hpos | hzero
    · simp [dashTick, hpos]
    · simp [dashTick, ← hzero]
      norm_num
  have hle : ∀ x : ℚ, dashTick x ≤ x := by
    intro x
    unfold dashTick
    split
    · exact max_le (by linarith) (by linarith)
    · exact le_refl x
  have hnn : ∀ x : ℚ, 0 ≤ x → 0 ≤ dashTick x := by
    intro x hx
    unfold dashTick
    split
    · exact le_max_left _ _
    · exact hx
  have hiter : ∀ n : ℕ, 0 ≤ dashTick^[n] o := by
    intro n
    induction n with
    | zero => simpa using h
    | succ k ih =>
      rw [Function.iterate_succ_apply']
      exact hnn _ ih
  refine ⟨hstep o h, hle o, hnn o h, ?_, ?_, ?_⟩
  · intro hso
    rw [hstep o h]
    exact max_eq_right (by linarith)
  · simp [dashTick]
  · intro n
    refine ⟨hiter n, ?_⟩
    rw [Function.iterate_succ_apply']
    exact hle _

/-- Witness for C7 at offset `1`. -/
theorem dash_reveal_tick_witness :
    (0 : ℚ) ≤ 1 ∧
    (dashTick 1 = max 0 (1 - 3/1000) ∧
     dashTick 1 ≤ 1 ∧
     0 ≤ dashTick 1 ∧
     ((3:ℚ)/1000 ≤ 1 → dashTick 1 = 1 - 3/1000) ∧
     dashTick 0 = 0 ∧
     (∀ n : ℕ, 0 ≤ dashTick^[n] 1 ∧ dashTick^[n+1] 1 ≤ dashTick^[n] 1)) :=
  ⟨by norm_num, dash_reveal_tick 1 (by norm_num)⟩

/-! ### C10: pressure 0 is replaced by the 0.5 default -/

/-- C10: a captured sample with pressure exactly `0` is stored with
pressure `0.5` by `handleComplete` (`point.pressure || 0.5`), and the
2D line width computed for a segment starting at pressure `0` is
identical to the one computed at pressure `0.5` — a zero pressure never
influences the stroke width. -/
theorem pressure_zero_defaulted (x y t base ow cw : ℚ) :
    flattenRecording [[⟨.fin x, .fin y, .fin t, 0⟩]] =
      [⟨.fin x, .fin y, .fin t, 1/2⟩] ∧
    segWidthJ base ow cw 0 = segWidthJ base ow cw (1/2) ∧
    jsOr 0 (1/2) = 1/2 := by
  refine ⟨?_, ?_, jsOr_zero _⟩
  · simp [flattenRecording, JNum.isNumber, jsOr]
  · simp [segWidthJ, jsOr]

/-! ### C9: surface is cleared before strokes (nonempty input) -/

/-- C9 counterexample: invoking the 2D render with the empty point list
issues no commands at all — in particular the surface is neither filled
white nor cleared, so previous content stays. -/
theorem render_empty_no_clear_counterexample :
    drawSignature 20 20 40 40 2 .white [] = [] ∧
    DrawCmd.fillWhite ∉ drawSignature 20 20 40 40 2 .white [] ∧
    DrawCmd.clearRect ∉ drawSignature 20 20 40 40 2 .transparent [] := by
  refine ⟨rfl, ?_, ?_⟩ <;> simp [drawSignature]

/-- C9 amended: for every nonempty input point list the very first
command of the 2D render is the background clear — an opaque white fill
for the live preview and a transparent clear for the export — so it
precedes every stroke command of that render. -/
theorem render_clears_first (ow oh cw ch base : ℚ) (bg : Background)
    (pts : List JPoint) (h : pts ≠ []) :
    (drawSignature ow oh cw ch base bg pts).head? = some (bgCmd bg) ∧
    bgCmd .white = .fillWhite ∧ bgCmd .transparent = .clearRect := by
  refine ⟨?_, rfl, rfl⟩
  cases pts with
  | nil => exact absurd rfl h
  | cons p rest => simp [drawSignature]

/-- Witness for C9 (amended) on a one-point list in both modes. -/
theorem render_clears_first_witness :
    ([⟨JNum.fin 1, JNum.fin 1, 0, 1/2⟩] : List JPoint) ≠ [] ∧
    ((drawSignature 20 20 40 40 2 .white
        [⟨JNum.fin 1, JNum.fin 1, 0, 1/2⟩]).head? = some (bgCmd .white) ∧
     bgCmd .white = .fillWhite ∧ bgCmd .transparent = .clearRect) :=
  ⟨by simp,
   render_clears_first 20 20 40 40 2 .white [⟨JNum.fin 1, JNum.fin 1, 0, 1/2⟩]
     (by simp)⟩

/-! ### C6: index-policy reveal -/

/-- After `n ≤ total` ticks from a fresh start, both counters equal `n`
and a next frame is scheduled. -/
theorem animTick_iterate (total : ℕ) (s : AnimState) :
    ∀ n, n ≤ total →
      (animTick total)^[n] (animStart s) =
        ⟨n, n, true, true⟩ := by
  intro n hn
  induction n with
  | zero => rfl
  | succ k ih =>
    rw [Function.iterate_succ_apply', ih (Nat.le_of_succ_le hn)]
    have hk : ¬ total ≤ k := by omega
    simp [animTick, hk]

/-- C6: for a recording of `total ≥ 1` points, the index reveal starts
at `revealedCount = 0` (regardless of any superseded animation state,
which is discarded — its pending tick is cancelled), increases the
count by exactly 1 on each of the first `total` ticks, stays strictly
below `total` before the `total`-th tick, and reaches
`revealedCount = total` after exactly `total` ticks. -/
theorem index_reveal_spec (total : ℕ) (_htotal : 1 ≤ total) (s s' : AnimState) :
    (animStart s).revealedCount = 0 ∧
    animStart s = animStart s' ∧
    (∀ n < total,
      ((animTick total)^[n+1] (animStart s)).revealedCount =
        ((animTick total)^[n] (animStart s)).revealedCount + 1) ∧
    (∀ n < total, ((animTick total)^[n] (animStart s)).revealedCount < total) ∧
    ((animTick total)^[total] (animStart s)).revealedCount = total := by
  refine ⟨rfl, rfl, ?_, ?_, ?_⟩
  · intro n hn
    rw [animTick_iterate total s n (Nat.le_of_lt hn),
        animTick_iterate total s (n+1) hn]
  · intro n hn
    rw [animTick_iterate total s n (Nat.le_of_lt hn)]
    exact hn
  · rw [animTick_iterate total s total (le_refl total)]

/-- Witness for C6 at `total = 3`, superseding a stale animation state. -/
theorem index_reveal_spec_witness :
    1 ≤ 3 ∧
    ((animStart ⟨5, 5, false, true⟩).revealedCount = 0 ∧
     animStart ⟨5, 5, false, true⟩ = animStart ⟨0, 0, true, true⟩ ∧
     (∀ n < 3,
       ((animTick 3)^[n+1] (animStart ⟨5, 5, false, true⟩)).revealedCount =
         ((animTick 3)^[n] (animStart ⟨5, 5, false, true⟩)).revealedCount + 1) ∧
     (∀ n < 3,
       ((animTick 3)^[n] (animStart ⟨5, 5, false, true⟩)).revealedCount < 3) ∧
     ((animTick 3)^[3] (animStart ⟨5, 5, false, true⟩)).revealedCount = 3) :=
  ⟨by norm_num,
   index_reveal_spec 3 (by norm_num) ⟨5, 5, false, true⟩ ⟨0, 0, true, true⟩⟩

/-- Characterization of the segments the 2D loop emits: `s` is emitted
iff it is the record built from two consecutive in-range points that
both pass the `typeof` guard. -/
theorem mem_drawSegments (ow oh cw ch base : ℚ) (pts : List JPoint) (s : Seg) :
    s ∈ drawSegments ow oh cw ch base pts ↔
      ∃ cur nxt,
        pts.get? s.idx = some cur ∧ pts.get? (s.idx + 1) = some nxt ∧
        s.idx < pts.length - 1 ∧
        (cur.x.isNumber && cur.y.isNumber && nxt.x.isNumber && nxt.y.isNumber)
          = true ∧
        s = ⟨s.idx, scaleCoordJ cur.x ow cw, scaleCoordJ cur.y oh ch,
             scaleCoordJ nxt.x ow cw, scaleCoordJ nxt.y oh ch,
             segWidthJ base ow cw cur.pressure⟩ := by
  simp only [drawSegments, List.mem_filterMap, List.mem_range]
  constructor
  · rintro ⟨i, hi, hf⟩
    simp only [segAt] at hf
    cases hcur : pts.get? i with
    | none => rw [hcur] at hf; exact absurd hf (by simp)
    | some cur =>
      cases hnxt : pts.get? (i + 1) with
      | none => rw [hcur, hnxt] at hf; exact absurd hf (by simp)
      | some nxt =>
        rw [hcur, hnxt] at hf
        simp only [] at hf
        split at hf
        · cases hf
          exact ⟨cur, nxt, hcur, hnxt, hi, by assumption, rfl⟩
        · exact absurd hf (by simp)
  · rintro ⟨cur, nxt, hcur, hnxt, hlen, hg, hs⟩
    refine ⟨s.idx, hlen, ?_⟩
    simp only [segAt]
    rw [hcur, hnxt]
    simp only [hg, if_true]
    exact congrArg some hs.symm

/-! ### C2: stroke width scaling -/

/-- C2 counterexample: a segment whose starting point has pressure
exactly `0` is drawn with line width `base * (cw/ow) * 1.5` (the `||`
default), not `base * (cw/ow) * (1 + 0)` as the claim's formula with
"the segment's starting point's pressure" demands: at capture 20×20,
target 40×40, base 2, the emitted width is 6 while the claim predicts 4. -/
theorem strokeWidth_pressure_zero_counterexample :
    drawSegments 20 20 40 40 2
        [⟨.fin 0, .fin 0, 0, 0⟩, ⟨.fin 10, .fin 0, 1, 0⟩] =
      [⟨0, .fin 0, .fin 0, .fin 20, .fin 0, .fin 6⟩] ∧
    (6 : ℚ) ≠ 2 * (40 / 20) * (1 + 0) := by
  constructor
  · simp only [drawSegments, segAt, List.length_cons, List.length_nil,
      Nat.add_sub_cancel, List.range_succ, List.range_zero, List.nil_append,
      List.cons_append, List.filterMap_cons, List.filterMap_nil]
    norm_num [List.get?_cons_zero, List.get?_cons_succ, JNum.isNumber,
      scaleCoordJ, jdiv, jmul, segWidthJ, jsOr]
  · norm_num

/-- C2 (amended): every segment the 2D renderer draws has line width
`baseWidth * (targetDim / referenceDim) * (1 + p)` where `p` is the
starting point's pressure when it is nonzero and `0.5` otherwise
(the `pressure || 0.5` default); and the reference scenario — recording
`[(0,0,t0,0.5), (10,0,t1,0.5), (10,10,t2,0.5)]` captured at 20×20 and
rendered to a 40×40 target — draws exactly 2 segments whose endpoints
are the capture coordinates scaled by factor 2 and whose line width is
`baseWidth * 2 * 1.5`. -/
theorem strokeWidth_scaling (ow oh cw ch base : ℚ) (pts : List JPoint)
    (how : ow ≠ 0) :
    (∀ s ∈ drawSegments ow oh cw ch base pts,
        ∃ cur, pts.get? s.idx = some cur ∧
          s.w = JNum.fin (base * (cw / ow) * (1 + jsOr cur.pressure (1/2)))) ∧
    (∀ base' t0 t1 t2 : ℚ,
        drawSegments 20 20 40 40 base'
            [⟨.fin 0, .fin 0, t0, 1/2⟩, ⟨.fin 10, .fin 0, t1, 1/2⟩,
             ⟨.fin 10, .fin 10, t2, 1/2⟩] =
          [⟨0, .fin 0, .fin 0, .fin 20, .fin 0, .fin (base' * 2 * (3/2))⟩,
           ⟨1, .fin 20, .fin 0, .fin 20, .fin 20, .fin (base' * 2 * (3/2))⟩]) := by
  constructor
  · intro s hs
    obtain ⟨cur, nxt, hcur, hnxt, hlen, hg, hrec⟩ :=
      (mem_drawSegments ow oh cw ch base pts s).1 hs
    refine ⟨cur, hcur, ?_⟩
    rw [hrec]
    exact segWidthJ_fin base ow cw cur.pressure how
  · intro base' t0 t1 t2
    simp only [drawSegments, segAt, List.length_cons, List.length_nil,
      Nat.add_sub_cancel, List.range_succ, List.range_zero, List.nil_append,
      List.cons_append, List.filterMap_cons, List.filterMap_nil]
    norm_num [List.get?_cons_zero, List.get?_cons_succ, JNum.isNumber,
      scaleCoordJ, jdiv, jmul, segWidthJ, jsOr]

/-- Witness for C2 (amended) at capture width 20 on a pressure-1
two-point recording: the single segment's width is
`base * (cw/ow) * (1 + 1) = 3 * 2 * 2`. -/
theorem strokeWidth_scaling_witness :
    (20 : ℚ) ≠ 0 ∧
    ((∀ s ∈ drawSegments 20 20 40 40 3
          [⟨.fin 0, .fin 0, 0, 1⟩, ⟨.fin 10, .fin 0, 1, 1⟩],
        ∃ cur,
          ([⟨.fin 0, .fin 0, 0, 1⟩, ⟨.fin 10, .fin 0, 1, 1⟩] :
              List JPoint).get? s.idx = some cur ∧
          s.w = JNum.fin (3 * (40 / 20) * (1 + jsOr cur.pressure (1/2)))) ∧
     (∀ base' t0 t1 t2 : ℚ,
        drawSegments 20 20 40 40 base'
            [⟨.fin 0, .fin 0, t0, 1/2⟩, ⟨.fin 10, .fin 0, t1, 1/2⟩,
             ⟨.fin 10, .fin 10, t2, 1/2⟩] =
          [⟨0, .fin 0, .fin 0, .fin 20, .fin 0, .fin (base' * 2 * (3/2))⟩,
           ⟨1, .fin 20, .fin 0, .fin 20, .fin 20, .fin (base' * 2 * (3/2))⟩])) :=
  ⟨by norm_num,
   strokeWidth_scaling 20 20 40 40 3
     [⟨.fin 0, .fin 0, 0, 1⟩, ⟨.fin 10, .fin 0, 1, 1⟩] (by norm_num)⟩

/-- A finite value is in particular a number for `typeof`. -/
theorem isNumber_of_finite (v : JNum) (h : v.finite = true) : v.isNumber = true := by
  cases v <;> simp_all [JNum.finite, JNum.isNumber]

/-- With a nonzero reference dimension, scaling preserves exactly the
finiteness of the coordinate: finite in, finite out; NaN/±Infinity in,
non-finite out. -/
theorem finite_scaleCoordJ (v : JNum) (orig target : ℚ) (h : orig ≠ 0) :
    (scaleCoordJ v orig target).finite = v.finite := by
  cases v with
  | fin q => rw [scaleCoordJ_fin q orig target h]; rfl
  | nan => rfl
  | undef => rfl
  | inf =>
    simp only [scaleCoordJ, jdiv]
    split_ifs <;> simp only [jmul] <;> split_ifs <;> rfl
  | ninf =>
    simp only [scaleCoordJ, jdiv]
    split_ifs <;> simp only [jmul] <;> split_ifs <;> rfl

/-- The midpoint x is finite exactly when both scaled x coordinates
are. -/
theorem finite_segMidX (s : Seg) :
    (segMidX s).finite = (s.cx.finite && s.nx.finite) := by
  unfold segMidX
  cases hc : s.cx <;> cases hn : s.nx <;>
    simp only [jadd, jdiv, JNum.finite, Bool.and_true, Bool.and_false,
      Bool.true_and, Bool.false_and] <;>
    norm_num

/-- The midpoint y is finite exactly when both scaled y coordinates
are. -/
theorem finite_segMidY (s : Seg) :
    (segMidY s).finite = (s.cy.finite && s.ny.finite) := by
  unfold segMidY
  cases hc : s.cy <;> cases hn : s.ny <;>
    simp only [jadd, jdiv, JNum.finite, Bool.and_true, Bool.and_false,
      Bool.true_and, Bool.false_and] <;>
    norm_num

/-- For the segment record built from two guarded points, the canvas
draws it exactly when both source points have finite coordinates. -/
theorem segDrawn_record (ow oh cw ch base : ℚ) (cur nxt : JPoint) (i : ℕ)
    (how : ow ≠ 0) (hoh : oh ≠ 0) :
    segDrawn ⟨i, scaleCoordJ cur.x ow cw, scaleCoordJ cur.y oh ch,
              scaleCoordJ nxt.x ow cw, scaleCoordJ nxt.y oh ch,
              segWidthJ base ow cw cur.pressure⟩ =
      (ptOk cur && ptOk nxt) := by
  simp only [segDrawn, finite_segMidX, finite_segMidY, finite_scaleCoordJ _ _ _ how,
    finite_scaleCoordJ _ _ _ hoh, ptOk]
  cases cur.x.finite <;> cases cur.y.finite <;> cases nxt.x.finite <;>
    cases nxt.y.finite <;> rfl

/-- `filterMap` with a nowhere-failing function keeps the length. -/
theorem length_filterMap_of_isSome {α β : Type} (f : α → Option β) :
    ∀ l : List α, (∀ a ∈ l, (f a).isSome) → (l.filterMap f).length = l.length := by
  intro l
  induction l with
  | nil => intro _; rfl
  | cons a l ih =>
    intro h
    cases hfa : f a with
    | none =>
      have := h a (by simp)
      rw [hfa] at this
      exact absurd this (by simp)
    | some b =>
      rw [List.filterMap_cons_some hfa]
      simp only [List.length_cons]
      rw [ih (fun x hx => h x (List.mem_cons_of_mem a hx))]

/-! ### C4: segment count and per-point skip isolation -/

/-- C4: with valid capture dimensions, a recording of `N ≥ 2` points
none of which is malformed yields exactly `N - 1` drawn path segments;
and in general the segment at index `i` is drawn iff both of its
endpoints (points `i` and `i+1`) have finite coordinates — so a
malformed point suppresses exactly the segments touching it while every
other segment is still drawn, and the draw never aborts. -/
theorem segment_count_and_isolation (ow oh cw ch base : ℚ) (pts : List JPoint)
    (how : ow ≠ 0) (hoh : oh ≠ 0) :
    ((∀ p ∈ pts, ptOk p = true) →
        (drawSegments ow oh cw ch base pts).length = pts.length - 1 ∧
        ∀ s ∈ drawSegments ow oh cw ch base pts, segDrawn s = true) ∧
    (∀ i, i + 1 < pts.length →
        ((∃ s ∈ drawSegments ow oh cw ch base pts, s.idx = i ∧ segDrawn s = true)
          ↔ (∃ cur, pts.get? i = some cur ∧ ptOk cur = true) ∧
            (∃ nxt, pts.get? (i + 1) = some nxt ∧ ptOk nxt = true))) := by
  constructor
  · intro hall
    constructor
    · unfold drawSegments
      rw [length_filterMap_of_isSome]
      · exact List.length_range _
      · intro i hi
        rw [List.mem_range] at hi
        have hi1 : i < pts.length := by omega
        have hi2 : i + 1 < pts.length := by omega
        have hcur := List.get?_eq_get hi1
        have hnxt := List.get?_eq_get hi2
        have hokc := hall _ (List.get_mem pts i hi1)
        have hokn := hall _ (List.get_mem pts (i+1) hi2)
        rw [ptOk, Bool.and_eq_true] at hokc hokn
        simp only [segAt, hcur, hnxt, isNumber_of_finite _ hokc.1,
          isNumber_of_finite _ hokc.2, isNumber_of_finite _ hokn.1,
          isNumber_of_finite _ hokn.2, Bool.and_self, if_true]
        rfl
    · intro s hs
      obtain ⟨cur, nxt, hcur, hnxt, hlen, hg, hrec⟩ :=
        (mem_drawSegments ow oh cw ch base pts s).1 hs
      rw [hrec, segDrawn_record ow oh cw ch base cur nxt s.idx how hoh]
      have hokc := hall cur (List.get?_mem hcur)
      have hokn := hall nxt (List.get?_mem hnxt)
      rw [hokc, hokn]
      rfl
  · intro i hilen
    constructor
    · rintro ⟨s, hs, hidx, hdrawn⟩
      obtain ⟨cur, nxt, hcur, hnxt, hlen, hg, hrec⟩ :=
        (mem_drawSegments ow oh cw ch base pts s).1 hs
      rw [hrec, segDrawn_record ow oh cw ch base cur nxt s.idx how hoh,
        Bool.and_eq_true] at hdrawn
      subst hidx
      exact ⟨⟨cur, hcur, hdrawn.1⟩, ⟨nxt, hnxt, hdrawn.2⟩⟩
    · rintro ⟨⟨cur, hcur, hokc⟩, ⟨nxt, hnxt, hokn⟩⟩
      have hokc' := hokc
      have hokn' := hokn
      rw [ptOk, Bool.and_eq_true] at hokc' hokn'
      refine ⟨⟨i, scaleCoordJ cur.x ow cw, scaleCoordJ cur.y oh ch,
               scaleCoordJ nxt.x ow cw, scaleCoordJ nxt.y oh ch,
               segWidthJ base ow cw cur.pressure⟩, ?_, rfl, ?_⟩
      · refine (mem_drawSegments ow oh cw ch base pts _).2
          ⟨cur, nxt, hcur, hnxt, by show i < pts.length - 1; omega, ?_, rfl⟩
        simp [isNumber_of_finite _ hokc'.1, isNumber_of_finite _ hokc'.2,
          isNumber_of_finite _ hokn'.1, isNumber_of_finite _ hokn'.2]
      · rw [segDrawn_record ow oh cw ch base cur nxt i how hoh, hokc, hokn]
        rfl

/-- Witness for C4 on the valid three-point recording at capture 20×20,
target 40×40. -/
theorem segment_count_and_isolation_witness :
    (20 : ℚ) ≠ 0 ∧ (20 : ℚ) ≠ 0 ∧
    (((∀ p ∈ ([⟨.fin 0, .fin 0, 0, 1/2⟩, ⟨.fin 10, .fin 0, 1, 1/2⟩,
          ⟨.fin 10, .fin 10, 2, 1/2⟩] : List JPoint), ptOk p = true) →
        (drawSegments 20 20 40 40 2
            [⟨.fin 0, .fin 0, 0, 1/2⟩, ⟨.fin 10, .fin 0, 1, 1/2⟩,
             ⟨.fin 10, .fin 10, 2, 1/2⟩]).length =
          ([⟨.fin 0, .fin 0, 0, 1/2⟩, ⟨.fin 10, .fin 0, 1, 1/2⟩,
            ⟨.fin 10, .fin 10, 2, 1/2⟩] : List JPoint).length - 1 ∧
        ∀ s ∈ drawSegments 20 20 40 40 2
            [⟨.fin 0, .fin 0, 0, 1/2⟩, ⟨.fin 10, .fin 0, 1, 1/2⟩,
             ⟨.fin 10, .fin 10, 2, 1/2⟩], segDrawn s = true) ∧
     (∀ i, i + 1 < ([⟨.fin 0, .fin 0, 0, 1/2⟩, ⟨.fin 10, .fin 0, 1, 1/2⟩,
          ⟨.fin 10, .fin 10, 2, 1/2⟩] : List JPoint).length →
        ((∃ s ∈ drawSegments 20 20 40 40 2
              [⟨.fin 0, .fin 0, 0, 1/2⟩, ⟨.fin 10, .fin 0, 1, 1/2⟩,
               ⟨.fin 10, .fin 10, 2, 1/2⟩], s.idx = i ∧ segDrawn s = true)
          ↔ (∃ cur, ([⟨.fin 0, .fin 0, 0, 1/2⟩, ⟨.fin 10, .fin 0, 1, 1/2⟩,
                ⟨.fin 10, .fin 10, 2, 1/2⟩] : List JPoint).get? i = some cur ∧
              ptOk cur = true) ∧
            (∃ nxt, ([⟨.fin 0, .fin 0, 0, 1/2⟩, ⟨.fin 10, .fin 0, 1, 1/2⟩,
                ⟨.fin 10, .fin 10, 2, 1/2⟩] : List JPoint).get? (i + 1) = some nxt ∧
              ptOk nxt = true)))) :=
  ⟨by norm_num, by norm_num,
   segment_count_and_isolation 20 20 40 40 2
     [⟨.fin 0, .fin 0, 0, 1/2⟩, ⟨.fin 10, .fin 0, 1, 1/2⟩,
      ⟨.fin 10, .fin 10, 2, 1/2⟩] (by norm_num) (by norm_num)⟩

/-- If no sample fails, collecting succeeds and keeps the count. -/
theorem allSome_of_isSome :
    ∀ xs : List (Option V3), (∀ x ∈ xs, x.isSome) →
      ∃ l, allSome xs = some l ∧ l.length = xs.length := by
  intro xs
  induction xs with
  | nil => intro _; exact ⟨[], rfl, rfl⟩
  | cons x xs ih =>
    intro h
    cases hx : x with
    | none =>
      have := h x (by simp)
      rw [hx] at this
      exact absurd this (by simp)
    | some a =>
      obtain ⟨l, hl, hlen⟩ := ih (fun y hy => h y (List.mem_cons_of_mem x hy))
      refine ⟨a :: l, ?_, by simp [hlen]⟩
      simp only [allSome, hl]

/-- An in-range index lookup succeeds. -/
theorem get?_isSome_of_lt {l : List V3} {n : ℕ} (h : n < l.length) :
    (l.get? n).isSome := by
  rw [List.get?_eq_get h]
  rfl

/-- For a curve of at least two points and a control index inside
`[0, l-2]`, the `p0` control point exists. -/
theorem catmullP0_isSome (pts : List V3) (ip : ℤ) (hl : 2 ≤ pts.length)
    (_h0 : 0 ≤ ip) (h2 : ip ≤ (pts.length : ℤ) - 2) :
    (catmullP0 pts ip).isSome := by
  unfold catmullP0
  split_ifs with hip
  · rw [Int.emod_eq_of_lt (by omega) (by omega)]
    exact get?_isSome_of_lt (by omega)
  · rw [List.get?_eq_get (show 0 < pts.length by omega),
      List.get?_eq_get (show 1 < pts.length by omega)]
    rfl

/-- For a curve of at least two points and a control index inside
`[0, l-2]`, the `p3` control point exists. -/
theorem catmullP3_isSome (pts : List V3) (ip : ℤ) (hl : 2 ≤ pts.length)
    (h0 : 0 ≤ ip) (h2 : ip ≤ (pts.length : ℤ) - 2) :
    (catmullP3 pts ip).isSome := by
  unfold catmullP3
  split_ifs with hip
  · rw [Int.emod_eq_of_lt (by omega) (by omega)]
    exact get?_isSome_of_lt (by omega)
  · rw [List.get?_eq_get (show pts.length - 1 < pts.length by omega),
      List.get?_eq_get (show pts.length - 2 < pts.length by omega)]
    rfl

/-- Sampling any control segment inside `[0, l-2]` of a curve with at
least two points succeeds. -/
theorem catmullSample_isSome (pts : List V3) (ip : ℤ) (w : ℚ)
    (hl : 2 ≤ pts.length) (h0 : 0 ≤ ip) (h2 : ip ≤ (pts.length : ℤ) - 2) :
    (catmullSample pts ip w).isSome := by
  unfold catmullSample
  obtain ⟨a, ha⟩ := Option.isSome_iff_exists.1 (catmullP0_isSome pts ip hl h0 h2)
  have hm1 : ip % (pts.length : ℤ) = ip := Int.emod_eq_of_lt h0 (by omega)
  have hm2 : (ip + 1) % (pts.length : ℤ) = ip + 1 :=
    Int.emod_eq_of_lt (by omega) (by omega)
  obtain ⟨d, hd⟩ := Option.isSome_iff_exists.1 (catmullP3_isSome pts ip hl h0 h2)
  have hB : (pts.get? ((ip % (pts.length : ℤ)).toNat)).isSome := by
    rw [hm1]
    exact get?_isSome_of_lt (by omega)
  obtain ⟨b, hb⟩ := Option.isSome_iff_exists.1 hB
  have hC : (pts.get? (((ip + 1) % (pts.length : ℤ)).toNat)).isSome := by
    rw [hm2]
    exact get?_isSome_of_lt (by omega)
  obtain ⟨c, hc⟩ := Option.isSome_iff_exists.1 hC
  rw [ha]
  simp only [Option.some_bind]
  rw [hb]
  simp only [Option.some_bind]
  rw [hc]
  simp only [Option.some_bind]
  rw [hd]
  rfl

/-- For a curve of at least two points, `getPoint` succeeds on every
parameter in `[0, 1]`: the chosen control index always lies in
`[0, l-2]`. -/
theorem catmullPoint_isSome (pts : List V3) (t : ℚ) (hl : 2 ≤ pts.length)
    (h0 : 0 ≤ t) (h1 : t ≤ 1) : (catmullPoint pts t).isSome := by
  unfold catmullPoint
  set p : ℚ := ((pts.length : ℚ) - 1) * t with hp
  have hlq : (2 : ℚ) ≤ (pts.length : ℚ) := by exact_mod_cast hl
  have hp0 : 0 ≤ p := mul_nonneg (by linarith) h0
  have hp1 : p ≤ (pts.length : ℚ) - 1 := by
    calc p ≤ ((pts.length : ℚ) - 1) * 1 :=
          mul_le_mul_of_nonneg_left h1 (by linarith)
      _ = (pts.length : ℚ) - 1 := mul_one _
  have hfl0 : 0 ≤ ⌊p⌋ := Int.floor_nonneg.2 hp0
  have hflu : ⌊p⌋ ≤ (pts.length : ℤ) - 1 := by
    have hmono := Int.floor_le_floor (α := ℚ) hp1
    have hfc : ⌊(pts.length : ℚ) - 1⌋ = (pts.length : ℤ) - 1 := by
      rw [show (pts.length : ℚ) - 1 = ((((pts.length : ℤ) - 1) : ℤ) : ℚ) by
            push_cast; ring,
        Int.floor_intCast]
    omega
  split_ifs with hadj
  · exact catmullSample_isSome pts _ 1 hl (by omega) (by omega)
  · refine catmullSample_isSome pts _ _ hl hfl0 ?_
    by_contra hgt
    push_neg at hgt
    have heq : ⌊p⌋ = (pts.length : ℤ) - 1 := by omega
    have hge : ((pts.length : ℚ) - 1) ≤ p := by
      have hfle := Int.floor_le p
      rw [heq] at hfle
      push_cast at hfle
      linarith
    have hpe : p = (pts.length : ℚ) - 1 := le_antisymm hp1 hge
    refine hadj ⟨?_, heq⟩
    rw [heq]
    push_cast
    linarith

/-- Resampling a curve of at least two points with a positive division
count succeeds and yields `divisions + 1` samples. -/
theorem getPoints_spec (pts : List V3) (hl : 2 ≤ pts.length) (d : ℕ)
    (hd : 0 < d) : ∃ c, getPoints pts d = some c ∧ c.length = d + 1 := by
  unfold getPoints
  have hall : ∀ x ∈ (List.range (d + 1)).map
      (fun i : ℕ => catmullPoint pts ((i : ℚ) / (d : ℚ))), x.isSome := by
    intro x hx
    rw [List.mem_map] at hx
    obtain ⟨i, hi, rfl⟩ := hx
    rw [List.mem_range] at hi
    have hdq : (0 : ℚ) < (d : ℚ) := by exact_mod_cast hd
    apply catmullPoint_isSome pts _ hl
    · positivity
    · rw [div_le_one hdq]
      exact_mod_cast Nat.le_of_lt_succ hi
  obtain ⟨l, hsome, hlen⟩ := allSome_of_isSome
      ((List.range (d + 1)).map
        (fun i : ℕ => catmullPoint pts ((i : ℚ) / (d : ℚ)))) hall
  rw [List.length_map, List.length_range] at hlen
  exact ⟨l, hsome, hlen⟩

/-- First entry of a left scan. -/
theorem head?_scanl {α β : Type} (f : β → α → β) (b : β) (l : List α) :
    (List.scanl f b l).head? = some b := by
  cases l <;> simp [List.scanl]

/-- The running sums of non-negative summands are non-decreasing. -/
theorem chain'_le_scanl_add (l : List ℝ) (h : ∀ x ∈ l, 0 ≤ x) (a : ℝ) :
    (List.scanl (· + ·) a l).Chain' (· ≤ ·) := by
  induction l generalizing a with
  | nil => simp [List.scanl]
  | cons d l ih =>
    rw [List.scanl_cons, List.singleton_append]
    refine List.chain'_cons'.2 ⟨?_, ih (fun x hx => h x (by simp [hx])) (a + d)⟩
    intro y hy
    rw [head?_scanl] at hy
    have hd : 0 ≤ d := h d (by simp)
    have hya : a + d = y := by simpa using hy
    linarith

/-- The final entry of a left scan by addition is the start plus the
sum. -/
theorem getLast?_scanl_add (l : List ℝ) (a : ℝ) :
    (List.scanl (· + ·) a l).getLast? = some (a + l.sum) := by
  induction l generalizing a with
  | nil => simp [List.scanl]
  | cons d l ih =>
    rw [List.scanl_cons, List.singleton_append]
    cases hsc : List.scanl (· + ·) (a + d) l with
    | nil =>
      exact absurd hsc (by cases l <;> simp [List.scanl])
    | cons e l' =>
      rw [List.getLast?_cons_cons, ← hsc, ih (a + d)]
      congr 1
      simp only [List.sum_cons]
      ring

/-- Every consecutive-sample distance is non-negative. -/
theorem segLengths_nonneg (c : List V3) : ∀ x ∈ segLengths c, 0 ≤ x := by
  induction c with
  | nil => simp [segLengths]
  | cons a c ih =>
    cases c with
    | nil => simp [segLengths]
    | cons b c' =>
      intro x hx
      simp only [segLengths, List.mem_cons] at hx
      rcases hx with rfl | hx
      · exact Real.sqrt_nonneg _
      · exact ih x hx

/-! ### C3: 3D resampled centerline and cumulative arc length -/

/-- C3 counterexample: the two-point recording resampled by the 3D
builder yields a centerline of `2 * 10 + 1 = 21` samples, not
`(2 - 1) * 10 + 1 = 11` as the claim states: the code passes
`rawPoints.length * 10` divisions to the external resampler, which
returns `divisions + 1` samples. -/
theorem ribbon_sample_count_counterexample :
    (resampledCenterline 20 20 [⟨0, 0, 0, 1/2⟩, ⟨10, 0, 1, 1/2⟩]).map
        List.length = some 21 ∧
    (21 : ℕ) ≠ (2 - 1) * 10 + 1 := by
  constructor
  · obtain ⟨c, hc, hlen⟩ := getPoints_spec
      ([⟨0, 0, 0, 1/2⟩, ⟨10, 0, 1, 1/2⟩].map (mapRawPoint 20 20))
      (by simp) 20 (by norm_num)
    rw [resampledCenterline]
    simp only [List.length_cons, List.length_nil]
    rw [show ((1 + 1) * 10 : ℕ) = 20 from rfl] at *
    rw [hc]
    simp [hlen]
  · decide

/-- C3 (amended): for every recording of `N ≥ 2` points, the 3D
geometry rebuild succeeds and produces a resampled centerline of
exactly `N * 10 + 1` samples (the code requests `N * 10` divisions and
the resampler returns one more sample than divisions); the cumulative
arc-length sequence along that centerline is non-decreasing and its
final entry equals `totalLength`. -/
theorem ribbon_resample_spec (w h : ℚ) (data : List Point)
    (hN : 2 ≤ data.length) :
    ∃ c, resampledCenterline w h data = some c ∧
      c.length = data.length * 10 + 1 ∧
      (cumLengths c).Chain' (· ≤ ·) ∧
      (cumLengths c).getLast? = some (totalLength3D c) := by
  obtain ⟨c, hc, hlen⟩ := getPoints_spec (data.map (mapRawPoint w h))
    (by simpa using hN) (data.length * 10) (by omega)
  refine ⟨c, ?_, hlen, ?_, ?_⟩
  · rw [resampledCenterline]
    exact hc
  · exact chain'_le_scanl_add (segLengths c) (segLengths_nonneg c) 0
  · rw [cumLengths, getLast?_scanl_add (segLengths c) 0, totalLength3D, zero_add]

/-- Witness for C3 (amended) on a concrete two-point recording. -/
theorem ribbon_resample_spec_witness :
    2 ≤ ([⟨0, 0, 0, 1/2⟩, ⟨10, 0, 1, 1/2⟩] : List Point).length ∧
    (∃ c, resampledCenterline 20 20 [⟨0, 0, 0, 1/2⟩, ⟨10, 0, 1, 1/2⟩] = some c ∧
      c.length = ([⟨0, 0, 0, 1/2⟩, ⟨10, 0, 1, 1/2⟩] : List Point).length * 10 + 1 ∧
      (cumLengths c).Chain' (· ≤ ·) ∧
      (cumLengths c).getLast? = some (totalLength3D c)) :=
  ⟨by norm_num,
   ribbon_resample_spec 20 20 [⟨0, 0, 0, 1/2⟩, ⟨10, 0, 1, 1/2⟩] (by norm_num)⟩

/-! ### C8: degenerate recordings -/

/-- C8: the empty recording is a guarded no-op for the 3D rebuild and
produces no 2D commands; but a single-point recording is *not* guarded:
the rebuild constructs a one-point Catmull-Rom curve whose resampling
accesses the missing `points[1]` and fails (the thrown `TypeError`),
while the 2D renderer draws no segment for it. -/
theorem degenerate_recording_eval :
    rebuild3D 20 20 [] = BuildResult.noGeometry ∧
    drawSignature 20 20 40 40 2 .white [] = [] ∧
    drawSegments 20 20 40 40 2 [⟨.fin 5, .fin 5, 0, 1/2⟩] = [] ∧
    rebuild3D 20 20 [⟨5, 5, 0, 1/2⟩] = BuildResult.err := by
  refine ⟨rfl, rfl, rfl, ?_⟩
  rw [rebuild3D]
  norm_num [resampledCenterline, getPoints, mapRawPoint, List.range_succ,
    catmullPoint, catmullSample, catmullP0, allSome]
